import Mathlib

/-!
# Verification of the Raspberry-OS interrupt-management core

A shallow embedding of the interrupt-controller drivers of the repository
(`src/bsp/device_driver/arm/gicv2.rs`, `gicv2/gicd.rs`, `gicv2/gicc.rs`, and
`src/bsp/device_driver/bcm/bcm2xxx_interrupt_controller.rs`), together with
theorems settling the specification's claims about them.

Machine integers are modelled as `Nat` with explicit masking (`% 2 ^ w`,
`&&&`, `|||`, `<<<`, `>>>`) exactly where the hardware register protocol or
the Rust integer semantics mask. Memory-mapped register blocks become plain
record states; a register write is a field update. Panics (`panic!`,
`unimplemented!`, failed `assert!`) become an explicit outcome constructor.
-/

set_option maxRecDepth 4000

namespace RaspberryOS

/-! ## GICC — the GIC CPU interface (`src/bsp/device_driver/arm/gicv2/gicc.rs`)

The register block holds `CTLR`, `PMR`, `IAR` and `EOIR`, all `u32`.
`tock-registers` field reads mask to the field width at the field offset;
field writes with `.write` replace the whole register by the masked field
value. `IAR.InterruptID` and `EOIR.EOIINTID` are 10-bit fields at offset 0;
`PMR.Priority` is an 8-bit field at offset 0; `CTLR.Enable` is bit 0. -/

structure GICCState where
  ctlr : Nat
  pmr : Nat
  iar : Nat
  eoir : Nat
deriving Repr, DecidableEq

namespace GICC

/-- `GICC::priority_accept_all`: `self.registers.PMR.write(PMR::Priority.val(255))`. -/
def priority_accept_all (s : GICCState) : GICCState :=
  { s with pmr := 255 }

/-- `GICC::enable`: `self.registers.CTLR.write(CTLR::Enable::SET)`. -/
def enable (s : GICCState) : GICCState :=
  { s with ctlr := 1 }

/-- `GICC::pending_irq_number`: `self.registers.IAR.read(IAR::InterruptID) as usize`.
Reading the 10-bit `InterruptID` field at offset 0 yields `iar % 2 ^ 10`.
The IRQ-context token argument is a zero-size static capability and carries
no data; it is omitted from the embedding. -/
def pending_irq_number (s : GICCState) : Nat :=
  s.iar % 2 ^ 10

/-- `GICC::mark_comleted`: `self.registers.EOIR.write(EOIR::EOIINTID.val(irq_number))`.
The write replaces the register with the 10-bit-masked id. -/
def mark_comleted (s : GICCState) (irq_number : Nat) : GICCState :=
  { s with eoir := irq_number % 2 ^ 10 }

end GICC

/-! ## GICD — the GIC distributor (`src/bsp/device_driver/arm/gicv2/gicd.rs`)

Shared block: `CTLR` (`u32`), `TYPER` (`u32`, read-only), `ISENABLER`
(array of 31 `u32` words at 0x104), `ITARGETSR` (array of 248 `u32` words at
0x820). Banked block: `ISENABLER` (one `u32` at 0x100) and `ITARGETSR`
(8 read-only `u32` words at 0x800). `IRQSafeNullLock` hands out exclusive
access to the shared block; the embedding records whether the lock was
taken as a `Bool` alongside the state transformer. -/

structure GICDState where
  ctlr : Nat
  typer : Nat
  sharedISENABLER : List Nat
  sharedITARGETSR : List Nat
  bankedISENABLER : Nat
  bankedITARGETSR : List Nat
deriving Repr, DecidableEq

namespace GICD

/-- `SharedRegisters::num_irqs`:
`((self.TYPER.read(TYPER::ITLinesNumber) as usize) + 1) * 32`.
`ITLinesNumber` is the 5-bit field at offset 0 of `TYPER`. -/
def num_irqs (st : GICDState) : Nat :=
  (st.typer % 2 ^ 5 + 1) * 32

/-- `SharedRegisters::implemented_itargets_slice`'s index computation:
`let spi_itargetsr_max_index = ((self.num_irqs() - 32) >> 2) - 1;`. -/
def spi_itargetsr_max_index (st : GICDState) : Nat :=
  (num_irqs st - 32) >>> 2 - 1

/-- `GICD::local_gic_target_mask`:
`self.banked_registers.ITARGETSR[0].read(ITARGETSR::Offset0)` — the 8-bit
field at offset 0 of the first banked `ITARGETSR` word. -/
def local_gic_target_mask (st : GICDState) : Nat :=
  st.bankedITARGETSR.getD 0 0 % 2 ^ 8

/-- Overwrite the first `count` entries of a list with `v`; the embedding of
iterating a Rust sub-slice `&arr[0..count]` and writing `v` to each element. -/
def writeFirst : Nat → Nat → List Nat → List Nat
  | 0, _, l => l
  | _ + 1, _, [] => []
  | count + 1, v, _ :: tl => v :: writeFirst count v tl

/-- `GICD::boot_core_init`. Source steps: assert the kernel is in the init
phase (modelled by the `is_init` flag; a failed `assert!` is `none`); read
the boot core's routing mask from the banked `ITARGETSR`; under the shared
lock, iterate `implemented_itargets_slice()` — the sub-slice
`&self.ITARGETSR[0..spi_itargetsr_max_index]` (an exclusive range in the
source), after `assert!(self.num_irqs() >= 36)` — writing the mask into all
four 8-bit `Offset` fields of each visited word; finally write
`CTLR::Enable::SET` (the value 1). -/
def boot_core_init (is_init : Bool) (st : GICDState) : Option GICDState :=
  if is_init = false then
    none
  else if num_irqs st < 36 then
    none
  else
    let mask := local_gic_target_mask st
    let v := mask <<< 24 ||| mask <<< 16 ||| mask <<< 8 ||| mask
    some { st with
      sharedITARGETSR := writeFirst (spi_itargetsr_max_index st) v st.sharedITARGETSR,
      ctlr := 1 }

/-- `GICD::enable`. Returns the new distributor state together with a flag
recording whether the shared-register lock was taken. Source:
`let enable_reg_index = irq_num >> 5; let enable_bit = 1u32 << (irq_num % 32);`
then for `0..=31` an unlocked read-modify-write of the banked `ISENABLER`,
otherwise a locked read-modify-write of
`ISENABLER[enable_reg_index - 1]` in the shared block. -/
def enable (st : GICDState) (irq_num : Nat) : GICDState × Bool :=
  let enable_reg_index := irq_num >>> 5
  let enable_bit := 1 <<< (irq_num % 32)
  if irq_num ≤ 31 then
    ({ st with bankedISENABLER := st.bankedISENABLER ||| enable_bit }, false)
  else
    let enable_reg_index_shared := enable_reg_index - 1
    ({ st with
        sharedISENABLER := st.sharedISENABLER.set enable_reg_index_shared
          (st.sharedISENABLER.getD enable_reg_index_shared 0 ||| enable_bit) },
      true)

end GICD

/-! ## GICv2 façade (`src/bsp/device_driver/arm/gicv2.rs`) -/

/-- `GICv2::MAX_IRQ_NUMBER`: `const MAX_IRQ_NUMBER: usize = 300;`. -/
def MAX_IRQ_NUMBER : Nat := 300

/-- `exception::asynchronous::IRQHandlerDescriptor`: the immutable triple of
interrupt number, human-readable name and handler. The handler capability is
abstracted by the outcome its `handle()` call would report: `handlerOk = true`
stands for `Ok(())`, `false` for `Err(_)`. The number is the raw value of the
`BoundedUsize` (`IRQNumber`); theorems carry its range bound as a hypothesis. -/
structure IRQHandlerDescriptor where
  number : Nat
  name : String
  handlerOk : Bool
deriving Repr, DecidableEq

/-- `HandlerTable`: `[Option<IRQHandlerDescriptor<IRQNumber>>; MAX_IRQ_NUMBER + 1]`,
a fixed-size array of 301 slots; embedded as a list whose length-301 invariant
is carried as a hypothesis where needed. -/
def HandlerTable : Type := List (Option IRQHandlerDescriptor)

/-- `GICv2::register_handler` body (under `handler_table.write`): read the
descriptor's number, fail with `"IRQ handler already registered"` when the
slot is occupied, otherwise store the descriptor. Returns the result paired
with the table after the call. -/
def register_handler (table : List (Option IRQHandlerDescriptor))
    (d : IRQHandlerDescriptor) :
    Except String Unit × List (Option IRQHandlerDescriptor) :=
  let irq_number := d.number
  if (table.getD irq_number none).isSome then
    (Except.error "IRQ handler already registered", table)
  else
    (Except.ok (), table.set irq_number (some d))

/-- Observable actions of `GICv2::handle_pending_irqs` after the acknowledge
read: a handler invocation, and a write to the `EOIR` completion register
(recording the value written). -/
inductive Event where
  | handlerCall (irq : Nat)
  | eoirWrite (id : Nat)
deriving Repr, DecidableEq

/-- Outcome of a dispatch call: normal return with the emitted event trace
and the CPU-interface state afterwards, or a panic (with the events emitted
before the panic). -/
inductive DispatchResult where
  | ok (events : List Event) (gicc : GICCState)
  | panicked (msg : String) (events : List Event)
deriving Repr, DecidableEq

/-- `GICv2::handle_pending_irqs`. Source steps: read the acknowledged number
from `IAR` (`gicc.pending_irq_number`); return when it exceeds
`MAX_IRQ_NUMBER` (spurious); look the slot up in the handler table, panicking
when empty; invoke the handler, panicking when it fails; finally
`gicc.mark_comleted(irq_number as u32)`. The source messages carry the
formatted number; the embedding keeps the static text. -/
def handle_pending_irqs (gicc : GICCState)
    (table : List (Option IRQHandlerDescriptor)) : DispatchResult :=
  let irq_number := GICC.pending_irq_number gicc
  if MAX_IRQ_NUMBER < irq_number then
    .ok [] gicc
  else
    match table.getD irq_number none with
    | none => .panicked "No handler registered for IRQ" []
    | some descriptor =>
      if descriptor.handlerOk then
        .ok [Event.handlerCall irq_number, Event.eoirWrite (irq_number % 2 ^ 10)]
          (GICC.mark_comleted gicc irq_number)
      else
        .panicked "Error handling IRQ" [Event.handlerCall irq_number]

/-- `GICv2::print_handler` (under `handler_table.read`): iterate the table,
`skip(32)`, `enumerate`, and for each occupied slot print the line number
`i + 32` and the handler's name. The embedding returns the printed
(number, name) pairs in order; the `info!` sink is the only side effect in
the source and the table is only read. -/
def print_handler (table : List (Option IRQHandlerDescriptor)) :
    List (Nat × String) :=
  (table.drop 32).enum.filterMap fun p =>
    match p.2 with
    | some handler => some (p.1 + 32, handler.name)
    | none => none

/-! ## BCM interrupt controller
(`src/bsp/device_driver/bcm/bcm2xxx_interrupt_controller.rs`) -/

/-- `u64::trailing_zeros` on the `Nat` embedding of a `u64` value:
0 returns 64; otherwise count the trailing zero bits. -/
def trailing_zeros (m : Nat) : Nat :=
  if m = 0 then 64
  else if m % 2 = 1 then 0
  else trailing_zeros (m / 2) + 1
decreasing_by exact Nat.div_lt_self (Nat.pos_of_ne_zero (by assumption)) (by omega)

/-- `u64::wrapping_sub(1)` on the `Nat` embedding of a `u64` value. -/
def wrapping_sub_one (m : Nat) : Nat :=
  (m + (2 ^ 64 - 1)) % 2 ^ 64

/-- The mask update of `PendingIRQs::next`:
`self.bitmask &= self.bitmask.wrapping_sub(1)`. -/
def clearLowest (m : Nat) : Nat :=
  m &&& wrapping_sub_one m

/-- `struct PendingIRQs { bitmask: u64 }`: a snapshot of the pending-interrupt
bitmap, consumed by the iterator. The `u64` range invariant
`bitmask < 2 ^ 64` is carried as a hypothesis where it matters. -/
structure PendingIRQs where
  bitmask : Nat
deriving Repr, DecidableEq

/-- `impl Iterator for PendingIRQs`, `fn next`: on a zero mask return `None`;
otherwise yield `trailing_zeros` of the mask and clear its lowest set bit.
The embedding returns the yielded item together with the successor state. -/
def PendingIRQs.next (s : PendingIRQs) : Option Nat × PendingIRQs :=
  if s.bitmask = 0 then
    (none, s)
  else
    (some (trailing_zeros s.bitmask), ⟨clearLowest s.bitmask⟩)

/-- `clearLowest` strictly shrinks a nonzero mask (the termination measure of
the pending-bitmask iteration). -/
theorem clearLowest_lt {m : Nat} (hm : m ≠ 0) : clearLowest m < m := by
  have hle : clearLowest m ≤ wrapping_sub_one m := Nat.and_le_right
  have hw : wrapping_sub_one m < 2 ^ 64 :=
    Nat.mod_lt _ (by norm_num)
  rcases Nat.lt_or_ge m (2 ^ 64) with hlt | hge
  · have hsub : wrapping_sub_one m = m - 1 := by
      unfold wrapping_sub_one
      have h1 : (1:Nat) ≤ m := Nat.one_le_iff_ne_zero.mpr hm
      have he : m + (2 ^ 64 - 1) = (m - 1) + 2 ^ 64 := by omega
      rw [he, Nat.add_mod_right, Nat.mod_eq_of_lt (by omega)]
    omega
  · omega

/-- The full yield sequence of the pending-bitmask iteration started at mask
`m`: repeatedly apply `PendingIRQs.next` and collect the yielded positions
until the mask is exhausted. -/
def pendingList (m : Nat) : List Nat :=
  if h : m = 0 then []
  else trailing_zeros m :: pendingList (clearLowest m)
decreasing_by exact clearLowest_lt h

/-- The iterator state reached after `k` calls to `PendingIRQs.next`. -/
def PendingIRQs.nthState (s : PendingIRQs) : Nat → PendingIRQs
  | 0 => s
  | k + 1 => PendingIRQs.nthState s.next.2 k

/-- `InterruptController::MAX_LOCAL_IRQ_NUMBER`. -/
def MAX_LOCAL_IRQ_NUMBER : Nat := 3

/-- `InterruptController::MAX_PERIPHERAL_IRQ_NUMBER`. -/
def MAX_PERIPHERAL_IRQ_NUMBER : Nat := 63

/-- `enum IRQNumber { Local(LocalIRQ), Peripheral(PeripheralIRQ) }`: the
vendor controller's tagged union of interrupt numbers. The payloads are the
raw values of the `BoundedUsize` wrappers (`LocalIRQ` bounded by 3,
`PeripheralIRQ` by 63); the bounds are hypotheses where needed. -/
inductive BcmIRQNumber where
  | Local (n : Nat)
  | Peripheral (n : Nat)
deriving Repr, DecidableEq

/-- Outcome of a vendor-controller operation: a normal return carrying the
new controller state, a recoverable error (`Err` in the source), or a panic
(`unimplemented!` aborts in the source). -/
inductive BcmResult (α : Type) where
  | ok (a : α)
  | err (msg : String)
  | panicked (msg : String)
deriving Repr, DecidableEq

/-- Whether a `BcmResult` is a recoverable error return. -/
def BcmResult.isErr {α : Type} : BcmResult α → Bool
  | .err _ => true
  | _ => false

/-- Whether a `BcmResult` is a panic. -/
def BcmResult.isPanicked {α : Type} : BcmResult α → Bool
  | .panicked _ => true
  | _ => false

/-- Modelled from the spec: the peripheral controller's state
(`src/bsp/device_driver/bcm/peripheral_ic.rs` is declared by
`mod peripheral_ic;` but is not among the provided sources). Per spec §2,
§4.2 and §4.5 it owns its own handler registry (one slot per peripheral
number, 64 slots) and an enable register in its single memory-mapped block. -/
structure PeripheralICState where
  handler_table : List (Option IRQHandlerDescriptor)
  enableMask : Nat
deriving Repr, DecidableEq

/-- Modelled from the spec: `PeripheralIC::register_handler`
(`peripheral_ic.rs` is not among the provided sources). Per spec §4.2 it
fails with the already-registered error when the slot for the descriptor's
number is occupied and stores the descriptor otherwise. -/
def PeripheralIC.register_handler (st : PeripheralICState)
    (d : IRQHandlerDescriptor) : BcmResult PeripheralICState :=
  if (st.handler_table.getD d.number none).isSome then
    .err "IRQ handler already registered"
  else
    .ok { st with handler_table := st.handler_table.set d.number (some d) }

/-- Modelled from the spec: `PeripheralIC::enable` (`peripheral_ic.rs` is not
among the provided sources). Per spec §4.5, enabling is a direct bit set in
an enable register. -/
def PeripheralIC.enable (st : PeripheralICState) (pirq : Nat) :
    PeripheralICState :=
  { st with enableMask := st.enableMask ||| 1 <<< pirq }

/-- `InterruptController::register_handler`: a `Local` number hits
`unimplemented!("Local IRQ controller not implemented.")` — a panic; a
`Peripheral` number rebuilds the descriptor around the inner bounded number
and delegates to the peripheral controller. -/
def InterruptController.register_handler (st : PeripheralICState)
    (number : BcmIRQNumber) (name : String) (handlerOk : Bool) :
    BcmResult PeripheralICState :=
  match number with
  | .Local _ => .panicked "Local IRQ controller not implemented."
  | .Peripheral pirq =>
    PeripheralIC.register_handler st
      { number := pirq, name := name, handlerOk := handlerOk }

/-- `InterruptController::enable`: a `Local` number hits
`unimplemented!("Local IRQ controller not implemented.")` — a panic; a
`Peripheral` number delegates to the peripheral controller (which returns
no value, so a normal return carries the updated state). -/
def InterruptController.enable (st : PeripheralICState)
    (irq : BcmIRQNumber) : BcmResult PeripheralICState :=
  match irq with
  | .Local _ => .panicked "Local IRQ controller not implemented."
  | .Peripheral pirq => .ok (PeripheralIC.enable st pirq)

/-! ## Helper lemmas -/

/-- Successful dispatch: when the acknowledged number is valid and its slot
holds a descriptor whose handler succeeds, `handle_pending_irqs` emits
exactly the handler call followed by the completion write of the same id,
and updates only the `EOIR` register. -/
theorem dispatch_ok {gicc : GICCState} {table : List (Option IRQHandlerDescriptor)}
    {n : Nat} {d : IRQHandlerDescriptor}
    (h1 : GICC.pending_irq_number gicc = n) (h2 : n ≤ MAX_IRQ_NUMBER)
    (h3 : table.getD n none = some d) (h4 : d.handlerOk = true) :
    handle_pending_irqs gicc table =
      DispatchResult.ok [Event.handlerCall n, Event.eoirWrite n]
        (GICC.mark_comleted gicc n) := by
  have hmod : n % 2 ^ 10 = n := by
    have : n < 2 ^ 10 := by
      have := h2
      unfold MAX_IRQ_NUMBER at this
      omega
    exact Nat.mod_eq_of_lt this
  have hlt : n < 1024 := by
    unfold MAX_IRQ_NUMBER at h2
    omega
  unfold handle_pending_irqs
  rw [h1, if_neg (by omega), h3]
  simp [h4, hmod, hlt]

/-- Bit `b` of `x ||| 2 ^ b` is set. -/
theorem testBit_or_shiftLeft_self (x b : Nat) :
    (x ||| 1 <<< b).testBit b = true := by
  simp [Nat.testBit_or, Nat.shiftLeft_eq, Nat.testBit_two_pow]

/-- Every bit other than `b` of `x ||| 2 ^ b` agrees with `x`. -/
theorem testBit_or_shiftLeft_ne (x b j : Nat) (h : j ≠ b) :
    (x ||| 1 <<< b).testBit j = x.testBit j := by
  have hbj : b ≠ j := Ne.symm h
  simp [Nat.testBit_or, Nat.shiftLeft_eq, Nat.testBit_two_pow, hbj]

/-! ## Claim theorems -/

/-- C1: for every acknowledged interrupt number that is valid (at most
`MAX_IRQ_NUMBER`) and has a registered handler (whose invocation succeeds),
`GICv2::handle_pending_irqs` performs exactly one handler call and exactly
one end-of-interrupt completion write, in that order, and the id written to
the completion register equals the acknowledged id. -/
theorem C1_dispatch_valid_registered (gicc : GICCState)
    (table : List (Option IRQHandlerDescriptor)) (n : Nat)
    (d : IRQHandlerDescriptor)
    (h1 : GICC.pending_irq_number gicc = n) (h2 : n ≤ MAX_IRQ_NUMBER)
    (h3 : table.getD n none = some d) (h4 : d.handlerOk = true) :
    handle_pending_irqs gicc table =
      DispatchResult.ok [Event.handlerCall n, Event.eoirWrite n]
        (GICC.mark_comleted gicc n) ∧
    (GICC.mark_comleted gicc n).eoir = n := by
  refine ⟨dispatch_ok h1 h2 h3 h4, ?_⟩
  unfold GICC.mark_comleted
  simp only
  have : n < 2 ^ 10 := by
    have := h2
    unfold MAX_IRQ_NUMBER at this
    omega
  exact Nat.mod_eq_of_lt this

/-- Witness for C1 at a concrete input: IAR holds id 42, slot 42 holds a
registered descriptor whose handler succeeds. -/
theorem C1_dispatch_valid_registered_witness :
    (GICC.pending_irq_number ⟨0, 0, 42, 0⟩ = 42 ∧ 42 ≤ MAX_IRQ_NUMBER ∧
      ((List.replicate 301 (none : Option IRQHandlerDescriptor)).set 42
        (some ⟨42, "timer", true⟩)).getD 42 none = some ⟨42, "timer", true⟩ ∧
      (IRQHandlerDescriptor.mk 42 "timer" true).handlerOk = true) ∧
    (handle_pending_irqs ⟨0, 0, 42, 0⟩
        ((List.replicate 301 (none : Option IRQHandlerDescriptor)).set 42
          (some ⟨42, "timer", true⟩)) =
      DispatchResult.ok [Event.handlerCall 42, Event.eoirWrite 42]
        (GICC.mark_comleted ⟨0, 0, 42, 0⟩ 42) ∧
    (GICC.mark_comleted ⟨0, 0, 42, 0⟩ 42).eoir = 42) :=
  ⟨⟨rfl, by decide, by rfl, rfl⟩,
    C1_dispatch_valid_registered ⟨0, 0, 42, 0⟩ _ 42 ⟨42, "timer", true⟩
      rfl (by decide) (by rfl) rfl⟩

/-- C2: for every acknowledged interrupt number strictly greater than
`MAX_IRQ_NUMBER`, `GICv2::handle_pending_irqs` returns immediately: no
handler is invoked, the completion register is not written (the CPU
interface state is returned unchanged), and the result does not depend on
the handler table (the theorem holds for every `table`), so the table is
not consulted. -/
theorem C2_spurious_returns_immediately (gicc : GICCState)
    (table : List (Option IRQHandlerDescriptor))
    (h : MAX_IRQ_NUMBER < GICC.pending_irq_number gicc) :
    handle_pending_irqs gicc table = DispatchResult.ok [] gicc := by
  unfold handle_pending_irqs
  rw [if_pos h]

/-- Witness for C2 at a concrete input: IAR holds the spurious id 1022. -/
theorem C2_spurious_returns_immediately_witness :
    MAX_IRQ_NUMBER < GICC.pending_irq_number ⟨0, 0, 1022, 0⟩ ∧
    handle_pending_irqs ⟨0, 0, 1022, 0⟩
        (List.replicate 301 (none : Option IRQHandlerDescriptor)) =
      DispatchResult.ok [] ⟨0, 0, 1022, 0⟩ :=
  ⟨by decide,
    C2_spurious_returns_immediately ⟨0, 0, 1022, 0⟩ _ (by decide)⟩

/-- C3: `GICD::enable` with a private number (0–31) performs an unlocked
read-modify-write that sets exactly bit `number` of the banked `ISENABLER`
and leaves every shared register unchanged; with a shared number (32+) it
performs a read-modify-write under the shared-register lock that sets
exactly bit `number % 32` of shared `ISENABLER` word `(number >> 5) - 1` and
changes no other bit, word or register. -/
theorem C3_gicd_enable_private_shared_split (st : GICDState) (irq : Nat)
    (hirq : irq ≤ MAX_IRQ_NUMBER) :
    (irq ≤ 31 →
      GICD.enable st irq =
        ({ st with bankedISENABLER := st.bankedISENABLER ||| 1 <<< irq },
          false) ∧
      (st.bankedISENABLER ||| 1 <<< irq).testBit irq = true ∧
      (∀ j, j ≠ irq →
        (st.bankedISENABLER ||| 1 <<< irq).testBit j =
          st.bankedISENABLER.testBit j)) ∧
    (32 ≤ irq →
      GICD.enable st irq =
        ({ st with
            sharedISENABLER := st.sharedISENABLER.set (irq >>> 5 - 1)
              (st.sharedISENABLER.getD (irq >>> 5 - 1) 0 ||| 1 <<< (irq % 32)) },
          true) ∧
      (st.sharedISENABLER.getD (irq >>> 5 - 1) 0 ||| 1 <<< (irq % 32)).testBit
        (irq % 32) = true ∧
      (∀ j, j ≠ irq % 32 →
        (st.sharedISENABLER.getD (irq >>> 5 - 1) 0 ||| 1 <<< (irq % 32)).testBit j =
          (st.sharedISENABLER.getD (irq >>> 5 - 1) 0).testBit j) ∧
      (∀ k, k ≠ irq >>> 5 - 1 →
        (st.sharedISENABLER.set (irq >>> 5 - 1)
            (st.sharedISENABLER.getD (irq >>> 5 - 1) 0 ||| 1 <<< (irq % 32))).getD
            k 0 =
          st.sharedISENABLER.getD k 0)) := by
  constructor
  · intro h31
    have hmod : irq % 32 = irq := Nat.mod_eq_of_lt (by omega)
    refine ⟨?_, testBit_or_shiftLeft_self _ _, fun j hj => testBit_or_shiftLeft_ne _ _ _ hj⟩
    unfold GICD.enable
    rw [if_pos h31, hmod]
  · intro h32
    refine ⟨?_, testBit_or_shiftLeft_self _ _,
      fun j hj => testBit_or_shiftLeft_ne _ _ _ hj, fun k hk => ?_⟩
    · unfold GICD.enable
      rw [if_neg (by omega)]
    · simp only [List.getD_eq_getElem?_getD]
      rw [List.getElem?_set_ne (by omega)]

/-- Witness for C3 at concrete inputs: the private number 5 (bit 5 of the
banked register, no lock) and the shared number 40 (word `(40 >> 5) - 1 = 0`,
bit `40 % 32 = 8`, lock taken). -/
theorem C3_gicd_enable_private_shared_split_witness :
    (5 ≤ MAX_IRQ_NUMBER ∧
      (GICD.enable ⟨0, 0, List.replicate 31 0, List.replicate 248 0, 0,
          List.replicate 8 0⟩ 5 =
        ({ ctlr := 0, typer := 0, sharedISENABLER := List.replicate 31 0,
            sharedITARGETSR := List.replicate 248 0,
            bankedISENABLER := 0 ||| 1 <<< 5,
            bankedITARGETSR := List.replicate 8 0 }, false))) ∧
    (40 ≤ MAX_IRQ_NUMBER ∧
      (GICD.enable ⟨0, 0, List.replicate 31 0, List.replicate 248 0, 0,
          List.replicate 8 0⟩ 40 =
        ({ ctlr := 0, typer := 0,
            sharedISENABLER := (List.replicate 31 0).set (40 >>> 5 - 1)
              ((List.replicate 31 0).getD (40 >>> 5 - 1) 0 ||| 1 <<< (40 % 32)),
            sharedITARGETSR := List.replicate 248 0, bankedISENABLER := 0,
            bankedITARGETSR := List.replicate 8 0 }, true))) :=
  ⟨⟨by decide,
    ((C3_gicd_enable_private_shared_split
      ⟨0, 0, List.replicate 31 0, List.replicate 248 0, 0, List.replicate 8 0⟩
      5 (by decide)).1 (by decide)).1⟩,
   ⟨by decide,
    ((C3_gicd_enable_private_shared_split
      ⟨0, 0, List.replicate 31 0, List.replicate 248 0, 0, List.replicate 8 0⟩
      40 (by decide)).2 (by decide)).1⟩⟩

/-- C4 (code bug): with 64 implemented interrupt lines (`TYPER = 1`) and a
boot-core routing mask of 1, `GICD::boot_core_init` fills shared `ITARGETSR`
words 0–6 with the replicated mask `0x01010101` and sets the distributor's
enable bit, but leaves word 7 — the last implemented shared routing word,
covering interrupts 60–63 — unwritten, because the source slices
`&self.ITARGETSR[0..spi_itargetsr_max_index]` with an exclusive upper bound
on a value its own comment computes as the inclusive "max index". -/
theorem C4_boot_core_init_misses_last_itargetsr :
    (GICD.boot_core_init true
      { ctlr := 0, typer := 1, sharedISENABLER := List.replicate 31 0,
        sharedITARGETSR := List.replicate 248 0, bankedISENABLER := 0,
        bankedITARGETSR := [1, 0, 0, 0, 0, 0, 0, 0] }).map
      (fun st => (st.sharedITARGETSR.getD 6 0, st.sharedITARGETSR.getD 7 0,
        st.ctlr)) = some (16843009, 0, 1) := by
  rfl

/-- C6: registering a handler for a valid number `n` whose slot is empty
succeeds and stores the descriptor; a second registration for the same `n`
fails with the already-registered error, the table — hence the first
descriptor in slot `n` — is returned unchanged, and the first descriptor is
still the one dispatch invokes. -/
theorem C6_register_then_duplicate (table : List (Option IRQHandlerDescriptor))
    (d1 d2 : IRQHandlerDescriptor) (n : Nat)
    (hlen : table.length = MAX_IRQ_NUMBER + 1) (hn : n ≤ MAX_IRQ_NUMBER)
    (hempty : table.getD n none = none)
    (h1 : d1.number = n) (h2 : d2.number = n) :
    register_handler table d1 = (Except.ok (), table.set n (some d1)) ∧
    (table.set n (some d1)).getD n none = some d1 ∧
    register_handler (table.set n (some d1)) d2 =
      (Except.error "IRQ handler already registered", table.set n (some d1)) ∧
    (d1.handlerOk = true → ∀ gicc, GICC.pending_irq_number gicc = n →
      handle_pending_irqs gicc (table.set n (some d1)) =
        DispatchResult.ok [Event.handlerCall n, Event.eoirWrite n]
          (GICC.mark_comleted gicc n)) := by
  have hnlt : n < table.length := by
    rw [hlen]
    unfold MAX_IRQ_NUMBER
    unfold MAX_IRQ_NUMBER at hn
    omega
  have hgetset : (table.set n (some d1)).getD n none = some d1 := by
    simp only [List.getD_eq_getElem?_getD]
    rw [List.getElem?_set_self (by simpa using hnlt)]
    rfl
  have hempty' : table[n]?.getD none = none := by
    simpa only [List.getD_eq_getElem?_getD] using hempty
  have hgetset' : (table.set n (some d1))[n]?.getD none = some d1 := by
    simpa only [List.getD_eq_getElem?_getD] using hgetset
  refine ⟨?_, hgetset, ?_, ?_⟩
  · unfold register_handler
    rw [h1]
    simp [hempty']
  · unfold register_handler
    rw [h2]
    simp [hgetset']
  · intro hok gicc hg
    exact dispatch_ok hg hn hgetset hok

/-- Witness for C6 at a concrete input: slot 42 of the empty 301-slot table,
two descriptors for number 42. -/
theorem C6_register_then_duplicate_witness :
    ((List.replicate 301 (none : Option IRQHandlerDescriptor)).length =
        MAX_IRQ_NUMBER + 1 ∧
      42 ≤ MAX_IRQ_NUMBER ∧
      (List.replicate 301 (none : Option IRQHandlerDescriptor)).getD 42 none =
        none ∧
      (IRQHandlerDescriptor.mk 42 "timer" true).number = 42 ∧
      (IRQHandlerDescriptor.mk 42 "uart" true).number = 42) ∧
    (register_handler (List.replicate 301 (none : Option IRQHandlerDescriptor))
        ⟨42, "timer", true⟩ =
      (Except.ok (),
        (List.replicate 301 (none : Option IRQHandlerDescriptor)).set 42
          (some ⟨42, "timer", true⟩)) ∧
    ((List.replicate 301 (none : Option IRQHandlerDescriptor)).set 42
        (some ⟨42, "timer", true⟩)).getD 42 none = some ⟨42, "timer", true⟩ ∧
    register_handler
        ((List.replicate 301 (none : Option IRQHandlerDescriptor)).set 42
          (some ⟨42, "timer", true⟩)) ⟨42, "uart", true⟩ =
      (Except.error "IRQ handler already registered",
        (List.replicate 301 (none : Option IRQHandlerDescriptor)).set 42
          (some ⟨42, "timer", true⟩)) ∧
    ((IRQHandlerDescriptor.mk 42 "timer" true).handlerOk = true →
      ∀ gicc, GICC.pending_irq_number gicc = 42 →
        handle_pending_irqs gicc
            ((List.replicate 301 (none : Option IRQHandlerDescriptor)).set 42
              (some ⟨42, "timer", true⟩)) =
          DispatchResult.ok [Event.handlerCall 42, Event.eoirWrite 42]
            (GICC.mark_comleted gicc 42))) :=
  ⟨⟨by rfl, by decide, by rfl, rfl, rfl⟩,
    C6_register_then_duplicate _ ⟨42, "timer", true⟩ ⟨42, "uart", true⟩ 42
      (by rfl) (by decide) (by rfl) rfl rfl⟩

/-- C7 counterexample: at the concrete input `Local(0)`, both
`InterruptController::register_handler` and `InterruptController::enable`
panic via `unimplemented!` instead of returning a recoverable error, so the
claim that they return a recoverable `Unimplemented` error is false. -/
theorem C7_local_returns_error_counterexample :
    (InterruptController.register_handler ⟨List.replicate 64 none, 0⟩
        (BcmIRQNumber.Local 0) "LocalTimer" true).isErr = false ∧
    (InterruptController.register_handler ⟨List.replicate 64 none, 0⟩
        (BcmIRQNumber.Local 0) "LocalTimer" true).isPanicked = true ∧
    (InterruptController.enable ⟨List.replicate 64 none, 0⟩
        (BcmIRQNumber.Local 0)).isErr = false ∧
    (InterruptController.enable ⟨List.replicate 64 none, 0⟩
        (BcmIRQNumber.Local 0)).isPanicked = true :=
  ⟨rfl, rfl, rfl, rfl⟩

/-- C7 (amended): on the vendor controller, `register_handler` and `enable`
invoked with a `Local` interrupt number abort with the
`unimplemented!("Local IRQ controller not implemented.")` panic rather than
returning a recoverable error to the caller. -/
theorem C7_local_ops_panic (st : PeripheralICState) (n : Nat) (name : String)
    (handlerOk : Bool) :
    InterruptController.register_handler st (BcmIRQNumber.Local n) name
        handlerOk =
      BcmResult.panicked "Local IRQ controller not implemented." ∧
    InterruptController.enable st (BcmIRQNumber.Local n) =
      BcmResult.panicked "Local IRQ controller not implemented." :=
  ⟨rfl, rfl⟩

/-- C8: `GICv2::print_handler` prints exactly the currently-registered
interrupt numbers at slots 32 and above — the low numbers reserved for
architectural/local interrupts are skipped — each exactly once (the printed
numbers are strictly increasing, hence duplicate-free), with the name given
at registration; the embedding is a pure read of the table. -/
theorem C8_print_handler_enumerates_registry
    (table : List (Option IRQHandlerDescriptor)) :
    (∀ n name, (n, name) ∈ print_handler table ↔
      (32 ≤ n ∧ ∃ d, table.getD n none = some d ∧ d.name = name)) ∧
    List.Pairwise (fun a b => a.1 < b.1) (print_handler table) ∧
    ((print_handler table).map Prod.fst).Nodup := by
  have hpair : List.Pairwise (fun a b => a.1 < b.1) (print_handler table) := by
    unfold print_handler
    apply List.Pairwise.filterMap
      (R := fun p q : Nat × Option IRQHandlerDescriptor => p.1 < q.1)
    · rintro ⟨i, oi⟩ ⟨j, oj⟩ hij ⟨bn, bname⟩ hb ⟨cn, cname⟩ hc
      cases oi with
      | none => simp at hb
      | some di =>
        cases oj with
        | none => simp at hc
        | some dj =>
          simp only [Option.mem_def, Option.some.injEq, Prod.mk.injEq] at hb hc
          simp only at hij
          omega
    · rw [List.enum_eq_enumFrom, List.pairwise_iff_getElem]
      intro i j hi hj hlt
      rw [List.getElem_enumFrom _ _ _ hi, List.getElem_enumFrom _ _ _ hj]
      simpa using hlt
  refine ⟨?_, hpair, ?_⟩
  · intro n name
    constructor
    · intro hmem
      unfold print_handler at hmem
      obtain ⟨⟨i, o⟩, hp, hf⟩ := List.mem_filterMap.mp hmem
      cases o with
      | none => simp at hf
      | some d =>
        simp only [Option.some.injEq, Prod.mk.injEq] at hf
        obtain ⟨hn, hname⟩ := hf
        have hge : (table.drop 32)[i]? = some (some d) :=
          List.mk_mem_enum_iff_getElem?.mp hp
        rw [List.getElem?_drop] at hge
        refine ⟨by omega, d, ?_, hname⟩
        rw [List.getD_eq_getElem?_getD, show n = 32 + i by omega, hge]
        rfl
    · rintro ⟨h32, d, hget, hname⟩
      have hsome : table[n]? = some (some d) := by
        rw [List.getD_eq_getElem?_getD] at hget
        cases hEq : table[n]? with
        | none => rw [hEq] at hget; simp at hget
        | some o =>
          rw [hEq] at hget
          simp only [Option.getD_some] at hget
          rw [hget]
      unfold print_handler
      apply List.mem_filterMap.mpr
      refine ⟨(n - 32, some d), ?_, ?_⟩
      · apply List.mk_mem_enum_iff_getElem?.mpr
        rw [List.getElem?_drop, show 32 + (n - 32) = n by omega]
        exact_mod_cast hsome
      · simp only [Option.some.injEq, Prod.mk.injEq]
        exact ⟨by omega, hname⟩
  · have := hpair.map (f := Prod.fst) (S := (· < ·)) (fun a b h => h)
    exact this.imp Nat.ne_of_lt

/-! ## Bitmask-iteration lemmas (vendor controller) -/

/-- `trailing_zeros` of an odd number is 0. -/
theorem trailing_zeros_odd {m : Nat} (h : m % 2 = 1) : trailing_zeros m = 0 := by
  unfold trailing_zeros
  rw [if_neg (by omega), if_pos h]

/-- `trailing_zeros` of `2 * j + 1` is 0. -/
theorem trailing_zeros_two_mul_add_one (j : Nat) :
    trailing_zeros (2 * j + 1) = 0 :=
  trailing_zeros_odd (by omega)

/-- `trailing_zeros` of a nonzero even number counts one more than its half. -/
theorem trailing_zeros_two_mul {j : Nat} (hj : j ≠ 0) :
    trailing_zeros (2 * j) = trailing_zeros j + 1 := by
  have hdiv : 2 * j / 2 = j := by omega
  conv_lhs => rw [trailing_zeros]
  rw [if_neg (by omega), if_neg (by omega), hdiv]

/-- On the `u64` range, `wrapping_sub_one` of a nonzero value is plain
subtraction. -/
theorem wrapping_sub_one_eq {m : Nat} (h0 : m ≠ 0) (hlt : m < 2 ^ 64) :
    wrapping_sub_one m = m - 1 := by
  unfold wrapping_sub_one
  have he : m + (2 ^ 64 - 1) = (m - 1) + 2 ^ 64 := by omega
  rw [he, Nat.add_mod_right, Nat.mod_eq_of_lt (by omega)]

/-- Bit 0 of an even number is clear. -/
theorem testBit_two_mul_zero (j : Nat) : (2 * j).testBit 0 = false := by
  simp [Nat.testBit_zero]

/-- Bit 0 of an odd number is set. -/
theorem testBit_two_mul_add_one_zero (j : Nat) :
    (2 * j + 1).testBit 0 = true := by
  simp [Nat.testBit_zero]
  omega

/-- Bit `k + 1` of `2 * j` is bit `k` of `j`. -/
theorem testBit_two_mul_succ (j k : Nat) :
    (2 * j).testBit (k + 1) = j.testBit k := by
  rw [Nat.testBit_add_one]
  congr 1
  omega

/-- Bit `k + 1` of `2 * j + 1` is bit `k` of `j`. -/
theorem testBit_two_mul_add_one_succ (j k : Nat) :
    (2 * j + 1).testBit (k + 1) = j.testBit k := by
  rw [Nat.testBit_add_one]
  congr 1
  omega

/-- Clearing the lowest set bit of an odd number clears bit 0. -/
theorem clearLowest_two_mul_add_one {j : Nat} (h : 2 * j + 1 < 2 ^ 64) :
    clearLowest (2 * j + 1) = 2 * j := by
  unfold clearLowest
  rw [wrapping_sub_one_eq (by omega) h,
    show 2 * j + 1 - 1 = 2 * j by omega]
  apply Nat.eq_of_testBit_eq
  intro i
  rw [Nat.testBit_and]
  cases i with
  | zero => rw [testBit_two_mul_zero]; simp
  | succ k =>
    rw [testBit_two_mul_succ, testBit_two_mul_add_one_succ, Bool.and_self]

/-- Clearing the lowest set bit commutes with doubling. -/
theorem clearLowest_two_mul {j : Nat} (hj : j ≠ 0) (h : 2 * j < 2 ^ 64) :
    clearLowest (2 * j) = 2 * clearLowest j := by
  have hjlt : j < 2 ^ 64 := by omega
  unfold clearLowest
  rw [wrapping_sub_one_eq (by omega) h, wrapping_sub_one_eq hj hjlt,
    show 2 * j - 1 = 2 * (j - 1) + 1 by omega]
  apply Nat.eq_of_testBit_eq
  intro i
  rw [Nat.testBit_and]
  cases i with
  | zero => rw [testBit_two_mul_zero, testBit_two_mul_zero]; simp
  | succ k =>
    rw [testBit_two_mul_succ, testBit_two_mul_add_one_succ,
      testBit_two_mul_succ, Nat.testBit_and]

/-- On the `u64` range, `Nat.bitIndices` of a nonzero mask unfolds exactly as
one step of the pending-bitmask iteration: the trailing-zero count followed
by the indices of the mask with its lowest set bit cleared. -/
theorem bitIndices_cons : ∀ m : Nat, m ≠ 0 → m < 2 ^ 64 →
    Nat.bitIndices m = trailing_zeros m :: Nat.bitIndices (clearLowest m) := by
  intro m
  induction m using Nat.strong_induction_on with
  | _ m ih =>
    intro hm hlt
    rcases Nat.mod_two_eq_zero_or_one m with he | ho
    · have hj : m = 2 * (m / 2) := by omega
      have hj0 : m / 2 ≠ 0 := by omega
      rw [hj, Nat.bitIndices_two_mul,
        ih (m / 2) (by omega) hj0 (by omega),
        List.map_cons, trailing_zeros_two_mul hj0,
        clearLowest_two_mul hj0 (by omega), Nat.bitIndices_two_mul]
    · have hj : m = 2 * (m / 2) + 1 := by omega
      rw [hj, Nat.bitIndices_two_mul_add_one,
        trailing_zeros_two_mul_add_one,
        clearLowest_two_mul_add_one (by omega), Nat.bitIndices_two_mul]

/-- One-step unfolding of `pendingList` on a nonzero mask. -/
theorem pendingList_cons {m : Nat} (h : m ≠ 0) :
    pendingList m = trailing_zeros m :: pendingList (clearLowest m) := by
  rw [pendingList]
  exact dif_neg h

/-- `pendingList` on the zero mask is empty. -/
theorem pendingList_zero : pendingList 0 = [] := by
  rw [pendingList]
  rfl

/-- On the `u64` range, the pending-bitmask iteration yields exactly
`Nat.bitIndices`, Mathlib's list of set-bit positions in increasing order. -/
theorem pendingList_eq_bitIndices : ∀ m : Nat, m < 2 ^ 64 →
    pendingList m = Nat.bitIndices m := by
  intro m
  induction m using Nat.strong_induction_on with
  | _ m ih =>
    intro hlt
    by_cases hm : m = 0
    · subst hm
      rw [pendingList_zero, Nat.bitIndices_zero]
    · rw [pendingList_cons hm,
        ih (clearLowest m) (clearLowest_lt hm)
          (lt_trans (clearLowest_lt hm) hlt),
        ← bitIndices_cons m hm hlt]

/-- Membership in `Nat.bitIndices` is exactly `Nat.testBit`. -/
theorem mem_bitIndices_iff : ∀ n k : Nat,
    k ∈ n.bitIndices ↔ n.testBit k = true := by
  intro n
  induction n using Nat.strong_induction_on with
  | _ n ih =>
    intro k
    by_cases hn : n = 0
    · subst hn
      simp
    · rcases Nat.mod_two_eq_zero_or_one n with he | ho
      · have hj : n = 2 * (n / 2) := by omega
        rw [hj, Nat.bitIndices_two_mul]
        cases k with
        | zero =>
          rw [testBit_two_mul_zero]
          simp
        | succ k =>
          rw [testBit_two_mul_succ, ← ih (n / 2) (by omega) k]
          simp
      · have hj : n = 2 * (n / 2) + 1 := by omega
        rw [hj, Nat.bitIndices_two_mul_add_one]
        cases k with
        | zero =>
          rw [testBit_two_mul_add_one_zero]
          simp
        | succ k =>
          rw [testBit_two_mul_add_one_succ, ← ih (n / 2) (by omega) k]
          simp

/-- Every position yielded by the iteration on a `u64` mask is below 64. -/
theorem pendingList_mem_lt (m : Nat) (hm : m < 2 ^ 64) :
    ∀ k ∈ pendingList m, k < 64 := by
  intro k hk
  rw [pendingList_eq_bitIndices m hm] at hk
  have hbit : m.testBit k = true := (mem_bitIndices_iff m k).mp hk
  have h2 : 2 ^ k ≤ m := Nat.testBit_implies_ge hbit
  by_contra hge
  push_neg at hge
  have : (2 : Nat) ^ 64 ≤ 2 ^ k := Nat.pow_le_pow_right (by norm_num) hge
  omega

/-- The iteration on a `u64` mask yields at most 64 positions. -/
theorem pendingList_length_le (m : Nat) (hm : m < 2 ^ 64) :
    (pendingList m).length ≤ 64 := by
  have hsort : List.Sorted (· < ·) (pendingList m) := by
    rw [pendingList_eq_bitIndices m hm]
    exact Nat.bitIndices_sorted
  have hnd : (pendingList m).Nodup := hsort.nodup
  have hcard : (pendingList m).toFinset.card = (pendingList m).length :=
    List.toFinset_card_of_nodup hnd
  have hsubset : (pendingList m).toFinset ⊆ Finset.range 64 := by
    intro x hx
    rw [List.mem_toFinset] at hx
    exact Finset.mem_range.mpr (pendingList_mem_lt m hm x hx)
  have hle := Finset.card_le_card hsubset
  rw [Finset.card_range] at hle
  omega

/-- The successor state of one `next` call, as a function of the mask. -/
theorem next_snd_bitmask (m : Nat) :
    (PendingIRQs.next ⟨m⟩).2 = ⟨if m = 0 then m else clearLowest m⟩ := by
  unfold PendingIRQs.next
  by_cases h : m = 0 <;> simp [h]

/-- An empty yield sequence means the mask is zero. -/
theorem pendingList_eq_nil_iff {m : Nat} : pendingList m = [] ↔ m = 0 := by
  constructor
  · intro h
    by_contra h0
    rw [pendingList_cons h0] at h
    simp at h
  · intro h
    subst h
    exact pendingList_zero

/-- After `k` calls to `next`, the remaining yield sequence is the original
sequence with its first `k` entries dropped. -/
theorem nthState_drop : ∀ (k m : Nat), m < 2 ^ 64 →
    pendingList (PendingIRQs.nthState ⟨m⟩ k).bitmask = (pendingList m).drop k := by
  intro k
  induction k with
  | zero =>
    intro m hm
    simp [PendingIRQs.nthState]
  | succ k ih =>
    intro m hm
    rw [show PendingIRQs.nthState ⟨m⟩ (k + 1) =
      PendingIRQs.nthState (PendingIRQs.next ⟨m⟩).2 k from rfl]
    by_cases h0 : m = 0
    · subst h0
      rw [next_snd_bitmask,
        show (if (0:Nat) = 0 then (0:Nat) else clearLowest 0) = 0 by simp,
        ih 0 (by norm_num), pendingList_zero]
      simp
    · rw [next_snd_bitmask]
      simp only [if_neg h0]
      rw [ih (clearLowest m) (lt_trans (clearLowest_lt h0) hm),
        pendingList_cons h0]
      rfl

/-- C5: on every 64-bit mask, the pending-bitmask iteration yields exactly
the positions of the set bits (membership equals `testBit`), in strictly
ascending order, each exactly once, and terminates with the exhausted mask;
in particular mask `0b1010` yields `[1, 3]` and mask `0` yields nothing. -/
theorem C5_pending_iteration_yields_set_bits (m : Nat) (hm : m < 2 ^ 64) :
    (∀ k, k ∈ pendingList m ↔ m.testBit k = true) ∧
    List.Sorted (· < ·) (pendingList m) ∧
    (pendingList m).Nodup ∧
    pendingList 10 = [1, 3] ∧
    pendingList 0 = [] := by
  have hmain := pendingList_eq_bitIndices m hm
  have h1 : Nat.bitIndices 1 = [0] := Nat.bitIndices_one
  have h2 : Nat.bitIndices 2 = [1] := by
    have := Nat.bitIndices_two_mul 1
    rw [h1] at this
    simpa using this
  have h5 : Nat.bitIndices 5 = [0, 2] := by
    have := Nat.bitIndices_two_mul_add_one 2
    rw [h2] at this
    simpa using this
  have h10 : pendingList 10 = [1, 3] := by
    rw [pendingList_eq_bitIndices 10 (by norm_num)]
    have := Nat.bitIndices_two_mul 5
    rw [h5] at this
    simpa using this
  refine ⟨?_, ?_, ?_, h10, pendingList_zero⟩
  · intro k
    rw [hmain]
    exact mem_bitIndices_iff m k
  · rw [hmain]
    exact Nat.bitIndices_sorted
  · rw [hmain]
    exact Nat.bitIndices_sorted.nodup

/-- Witness for C5 at the concrete mask `0b1010 = 10`. -/
theorem C5_pending_iteration_yields_set_bits_witness :
    10 < 2 ^ 64 ∧
    ((∀ k, k ∈ pendingList 10 ↔ (10 : Nat).testBit k = true) ∧
      List.Sorted (· < ·) (pendingList 10) ∧
      (pendingList 10).Nodup ∧
      pendingList 10 = [1, 3] ∧
      pendingList 0 = []) :=
  ⟨by norm_num, C5_pending_iteration_yields_set_bits 10 (by norm_num)⟩

/-- C9: the pending-bitmask iterator always terminates. One `next` call on a
nonzero 64-bit mask yields the trailing-zero count and clears exactly that
(least-significant set) bit — it was set, is now clear, and every other bit
is unchanged — so the number of set bits (the length of Mathlib's
`bitIndices`) strictly decreases; hence after at most 64 calls the mask is
exhausted and every later `next` call returns `none`. -/
theorem C9_iteration_terminates (m : Nat) (h0 : m ≠ 0) (hm : m < 2 ^ 64) :
    PendingIRQs.next ⟨m⟩ = (some (trailing_zeros m), ⟨clearLowest m⟩) ∧
    m.testBit (trailing_zeros m) = true ∧
    (clearLowest m).testBit (trailing_zeros m) = false ∧
    (∀ k, k ≠ trailing_zeros m →
      (clearLowest m).testBit k = m.testBit k) ∧
    (clearLowest m).bitIndices.length + 1 = m.bitIndices.length ∧
    (∀ k, 64 ≤ k → (PendingIRQs.nthState ⟨m⟩ k).next.1 = none) := by
  have hcons := bitIndices_cons m h0 hm
  have hnext : PendingIRQs.next ⟨m⟩ =
      (some (trailing_zeros m), ⟨clearLowest m⟩) := by
    unfold PendingIRQs.next
    rw [if_neg h0]
  have htz : m.testBit (trailing_zeros m) = true := by
    rw [← mem_bitIndices_iff, hcons]
    exact List.mem_cons_self _ _
  have hnotmem : trailing_zeros m ∉ Nat.bitIndices (clearLowest m) := by
    have hnd : (Nat.bitIndices m).Nodup := Nat.bitIndices_sorted.nodup
    rw [hcons] at hnd
    exact (List.nodup_cons.mp hnd).1
  have hfalse : (clearLowest m).testBit (trailing_zeros m) = false := by
    cases hb : (clearLowest m).testBit (trailing_zeros m) with
    | false => rfl
    | true =>
      exact absurd ((mem_bitIndices_iff (clearLowest m) (trailing_zeros m)).mpr hb)
        hnotmem
  refine ⟨hnext, htz, hfalse, ?_, ?_, ?_⟩
  · intro k hk
    have h1 := mem_bitIndices_iff (clearLowest m) k
    have h2 := mem_bitIndices_iff m k
    rw [hcons] at h2
    have h3 : (k ∈ trailing_zeros m :: Nat.bitIndices (clearLowest m)) ↔
        k ∈ Nat.bitIndices (clearLowest m) := by
      simp [List.mem_cons, hk]
    have h4 : ((clearLowest m).testBit k = true) ↔ (m.testBit k = true) := by
      rw [← h1, ← h2, h3]
    cases hcb : (clearLowest m).testBit k <;> cases hmb : m.testBit k <;>
      simp_all
  · rw [hcons, List.length_cons]
  · intro k hk
    have hdrop := nthState_drop k m hm
    have hlen := pendingList_length_le m hm
    have hnil : pendingList (PendingIRQs.nthState ⟨m⟩ k).bitmask = [] := by
      rw [hdrop]
      exact List.drop_eq_nil_of_le (by omega)
    have hz : (PendingIRQs.nthState ⟨m⟩ k).bitmask = 0 :=
      pendingList_eq_nil_iff.mp hnil
    unfold PendingIRQs.next
    rw [if_pos hz]

/-- Witness for C9 at the concrete mask 10. -/
theorem C9_iteration_terminates_witness :
    ((10 : Nat) ≠ 0 ∧ 10 < 2 ^ 64) ∧
    (PendingIRQs.next ⟨10⟩ = (some (trailing_zeros 10), ⟨clearLowest 10⟩) ∧
      (10 : Nat).testBit (trailing_zeros 10) = true ∧
      (clearLowest 10).testBit (trailing_zeros 10) = false ∧
      (∀ k, k ≠ trailing_zeros 10 →
        (clearLowest 10).testBit k = (10 : Nat).testBit k) ∧
      (clearLowest 10).bitIndices.length + 1 = (10 : Nat).bitIndices.length ∧
      (∀ k, 64 ≤ k → (PendingIRQs.nthState ⟨10⟩ k).next.1 = none)) :=
  ⟨⟨by norm_num, by norm_num⟩, C9_iteration_terminates 10 (by norm_num) (by norm_num)⟩

/-- C10: every value yielded by the pending-bitmask iteration on a 64-bit
mask is at most 63 = `MAX_PERIPHERAL_IRQ_NUMBER`, and the trailing-zero
count of a nonzero 64-bit mask — the value one `next` call yields — is a
valid peripheral interrupt number. -/
theorem C10_yields_valid_peripheral_numbers (m : Nat) (hm : m < 2 ^ 64) :
    (∀ k, k ∈ pendingList m → k ≤ MAX_PERIPHERAL_IRQ_NUMBER) ∧
    (m ≠ 0 → trailing_zeros m ≤ MAX_PERIPHERAL_IRQ_NUMBER) := by
  have hb : ∀ k ∈ pendingList m, k ≤ MAX_PERIPHERAL_IRQ_NUMBER := by
    intro k hk
    have := pendingList_mem_lt m hm k hk
    unfold MAX_PERIPHERAL_IRQ_NUMBER
    omega
  refine ⟨hb, fun h0 => ?_⟩
  apply hb
  rw [pendingList_cons h0]
  exact List.mem_cons_self _ _

/-- Witness for C10 at the concrete mask 10. -/
theorem C10_yields_valid_peripheral_numbers_witness :
    10 < 2 ^ 64 ∧
    ((∀ k, k ∈ pendingList 10 → k ≤ MAX_PERIPHERAL_IRQ_NUMBER) ∧
      ((10 : Nat) ≠ 0 → trailing_zeros 10 ≤ MAX_PERIPHERAL_IRQ_NUMBER)) :=
  ⟨by norm_num, C10_yields_valid_peripheral_numbers 10 (by norm_num)⟩

end RaspberryOS
